import Mathlib

/-!
Shallow embedding of the `simple_token` ink! contract (`src/lib.rs`).

Account identifiers are modelled as natural numbers; `u128` values are
modelled as `Nat` with explicit checked arithmetic bounded by `2 ^ 128`
(`checked_add` fails exactly when the mathematical sum exceeds
`u128::MAX = 2 ^ 128 - 1`; `checked_sub` fails exactly on underflow).
The three ink! `Mapping`s are modelled as association lists with
first-match lookup and in-place overwrite, which reproduces ink!'s
`get(..).unwrap_or(default)` / `insert` semantics.

Every public message takes the caller explicitly (the Rust code reads it
from `self.env().caller()`) and returns the pair of the `Result` value
and the storage struct as it stands when the message returns.  Returning
the storage even in the error case is deliberate: the Rust methods
mutate `self` progressively, so a message that fails after a write
leaves that write visible in the storage value (host-level transaction
rollback is outside the contract code and outside this model).
-/

/-- Account identifiers are opaque values; we model them as `Nat`. -/
abbrev AccountId := Nat

/-- The first value that does NOT fit in a `u128`. -/
def U128 : Nat := 2 ^ 128

/-- `u128::checked_add`: `some (a + b)` unless the sum overflows. -/
def checked_add (a b : Nat) : Option Nat :=
  if a + b < U128 then some (a + b) else none

/-- `u128::checked_sub`: `some (a - b)` unless the subtraction underflows. -/
def checked_sub (a b : Nat) : Option Nat :=
  if b ≤ a then some (a - b) else none

/-- Association-list lookup, first match wins (ink! `Mapping::get`). -/
def mget {K V : Type} [DecidableEq K] : List (K × V) → K → Option V
  | [], _ => none
  | (k', v) :: rest, k => if k' = k then some v else mget rest k

/-- Association-list overwrite (ink! `Mapping::insert`): replaces the first
binding of the key, or appends a fresh binding. -/
def minsert {K V : Type} [DecidableEq K] : List (K × V) → K → V → List (K × V)
  | [], k, v => [(k, v)]
  | (k', v') :: rest, k, v =>
    if k' = k then (k, v) :: rest else (k', v') :: minsert rest k v

/-- Sum of all stored values of a balance map. -/
def listSum {K : Type} : List (K × Nat) → Nat
  | [] => 0
  | (_, v) :: rest => v + listSum rest

/-- The contract's error enumeration (`enum Error` in `src/lib.rs`). -/
inductive Error where
  | InsufficientBalance
  | NotOwner
  | SelfTransfer
  | Overflow
  | InsufficientAllowance
  | Paused
  | Blacklisted
  | BatchLengthMismatch
deriving DecidableEq, Repr

/-- The contract storage (`struct SimpleToken` in `src/lib.rs`). -/
structure SimpleToken where
  balances : List (AccountId × Nat)
  allowances : List ((AccountId × AccountId) × Nat)
  owner : AccountId
  total_supply : Nat
  paused : Bool
  blacklist : List (AccountId × Bool)
deriving DecidableEq, Repr

/-- The constructor `new`: empty maps, zero supply, owner = caller. -/
def SimpleToken.new (caller : AccountId) : SimpleToken :=
  { balances := []
    allowances := []
    owner := caller
    total_supply := 0
    paused := false
    blacklist := [] }

/-- `balance_of`: `self.balances.get(account).unwrap_or(0)`. -/
def balance_of (s : SimpleToken) (account : AccountId) : Nat :=
  (mget s.balances account).getD 0

/-- `allowance`: `self.allowances.get((owner, spender)).unwrap_or(0)`. -/
def allowance (s : SimpleToken) (owner spender : AccountId) : Nat :=
  (mget s.allowances (owner, spender)).getD 0

/-- `is_blacklisted`: `self.blacklist.get(account).unwrap_or(false)`. -/
def is_blacklisted (s : SimpleToken) (account : AccountId) : Bool :=
  (mget s.blacklist account).getD false

instance : DecidableEq (Except Error Unit) := fun a b =>
  match a, b with
  | .ok (), .ok () => isTrue rfl
  | .ok (), .error _ => isFalse (by simp)
  | .error _, .ok () => isFalse (by simp)
  | .error e, .error e' =>
    if h : e = e' then isTrue (by rw [h]) else isFalse (by simp [h])

/-- The result of one message call: the returned `Result<(), Error>` and the
storage as left by the call. -/
abbrev CallResult := Except Error Unit × SimpleToken

/-- `mint(dst, amount)`.  Note the source order: the recipient balance is
written (`balances.insert`) before the total supply checked addition runs,
so a supply overflow returns an error with the balance write in place. -/
def mint (s : SimpleToken) (caller dst : AccountId) (amount : Nat) : CallResult :=
  if caller ≠ s.owner then (.error .NotOwner, s)
  else if is_blacklisted s dst then (.error .Blacklisted, s)
  else
    match checked_add (balance_of s dst) amount with
    | none => (.error .Overflow, s)
    | some new_balance =>
      let s1 := { s with balances := minsert s.balances dst new_balance }
      match checked_add s1.total_supply amount with
      | none => (.error .Overflow, s1)
      | some new_supply => (.ok (), { s1 with total_supply := new_supply })

/-- `burn(amount)`: no owner gate; the caller burns its own balance.  As in
`mint`, the balance write precedes the total-supply checked subtraction. -/
def burn (s : SimpleToken) (caller : AccountId) (amount : Nat) : CallResult :=
  if balance_of s caller < amount then (.error .InsufficientBalance, s)
  else
    match checked_sub (balance_of s caller) amount with
    | none => (.error .Overflow, s)
    | some new_balance =>
      let s1 := { s with balances := minsert s.balances caller new_balance }
      match checked_sub s1.total_supply amount with
      | none => (.error .Overflow, s1)
      | some new_supply => (.ok (), { s1 with total_supply := new_supply })

/-- The private transfer engine `transfer_from_to(from, dst, amount)`.
Source order of the checks: paused, `from == dst`, blacklist, balance;
then the sender balance is WRITTEN, and only then is the recipient
checked addition computed, so a recipient overflow returns an error
with the sender's debit already in place. -/
def transfer_from_to (s : SimpleToken) (fr dst : AccountId) (amount : Nat) : CallResult :=
  if s.paused then (.error .Paused, s)
  else if fr = dst then (.error .SelfTransfer, s)
  else if is_blacklisted s fr || is_blacklisted s dst then (.error .Blacklisted, s)
  else if balance_of s fr < amount then (.error .InsufficientBalance, s)
  else
    match checked_sub (balance_of s fr) amount with
    | none => (.error .Overflow, s)
    | some new_from_balance =>
      let s1 := { s with balances := minsert s.balances fr new_from_balance }
      match checked_add (balance_of s1 dst) amount with
      | none => (.error .Overflow, s1)
      | some new_to_balance =>
        (.ok (), { s1 with balances := minsert s1.balances dst new_to_balance })

/-- `transfer(dst, amount)`: delegates into the transfer engine with the
caller as source. -/
def transfer (s : SimpleToken) (caller dst : AccountId) (amount : Nat) : CallResult :=
  transfer_from_to s caller dst amount

/-- `approve(spender, amount)`: unconditional overwrite of
`allowances[(caller, spender)]`; never fails. -/
def approve (s : SimpleToken) (caller spender : AccountId) (amount : Nat) : CallResult :=
  (.ok (), { s with allowances := minsert s.allowances (caller, spender) amount })

/-- `transfer_from(from, dst, amount)`: allowance check, then the transfer
engine (whose failure propagates together with any partial write), then
the allowance is decremented by checked subtraction and written back. -/
def transfer_from (s : SimpleToken) (caller fr dst : AccountId) (amount : Nat) : CallResult :=
  if allowance s fr caller < amount then (.error .InsufficientAllowance, s)
  else
    match transfer_from_to s fr dst amount with
    | (.error e, s1) => (.error e, s1)
    | (.ok _, s1) =>
      match checked_sub (allowance s fr caller) amount with
      | none => (.error .Overflow, s1)
      | some new_allowance =>
        (.ok (), { s1 with allowances := minsert s1.allowances (fr, caller) new_allowance })

/-- The loop body of `batch_transfer`: applies the transfer engine at each
(recipient, amount) pair in order; the first failure aborts with that
error and with the storage as the failing step left it. -/
def batch_go (caller : AccountId) : SimpleToken → List (AccountId × Nat) → CallResult
  | s, [] => (.ok (), s)
  | s, (dst, amount) :: rest =>
    match transfer_from_to s caller dst amount with
    | (.ok _, s1) => batch_go caller s1 rest
    | (.error e, s1) => (.error e, s1)

/-- `batch_transfer(recipients, amounts)`: length check, then the loop over
the zipped pairs. -/
def batch_transfer (s : SimpleToken) (caller : AccountId)
    (recipients : List AccountId) (amounts : List Nat) : CallResult :=
  if recipients.length ≠ amounts.length then (.error .BatchLengthMismatch, s)
  else batch_go caller s (recipients.zip amounts)

/-- `pause()`: owner-gated, sets the paused flag. -/
def pause (s : SimpleToken) (caller : AccountId) : CallResult :=
  if caller ≠ s.owner then (.error .NotOwner, s)
  else (.ok (), { s with paused := true })

/-- `unpause()`: owner-gated, clears the paused flag. -/
def unpause (s : SimpleToken) (caller : AccountId) : CallResult :=
  if caller ≠ s.owner then (.error .NotOwner, s)
  else (.ok (), { s with paused := false })

/-- `set_blacklist(account, blacklisted)`: owner-gated map write. -/
def set_blacklist (s : SimpleToken) (caller account : AccountId)
    (blacklisted : Bool) : CallResult :=
  if caller ≠ s.owner then (.error .NotOwner, s)
  else (.ok (), { s with blacklist := minsert s.blacklist account blacklisted })

/-- Well-formed storage: every stored numeric value fits in a `u128`.
Every storage value the real contract can hold satisfies this by
construction of the `u128` type. -/
def WF (s : SimpleToken) : Prop :=
  (∀ p ∈ s.balances, p.2 < U128) ∧
  (∀ p ∈ s.allowances, p.2 < U128) ∧
  s.total_supply < U128

instance (s : SimpleToken) : Decidable (WF s) := by
  unfold WF; infer_instance

/-- States reachable from a freshly constructed contract by successful
public messages. -/
inductive Reachable : SimpleToken → Prop where
  | created (caller : AccountId) : Reachable (SimpleToken.new caller)
  | step_mint {s s' : SimpleToken} (caller dst : AccountId) (amount : Nat) :
      Reachable s → mint s caller dst amount = (.ok (), s') → Reachable s'
  | step_burn {s s' : SimpleToken} (caller : AccountId) (amount : Nat) :
      Reachable s → burn s caller amount = (.ok (), s') → Reachable s'
  | step_transfer {s s' : SimpleToken} (caller dst : AccountId) (amount : Nat) :
      Reachable s → transfer s caller dst amount = (.ok (), s') → Reachable s'
  | step_approve {s s' : SimpleToken} (caller spender : AccountId) (amount : Nat) :
      Reachable s → approve s caller spender amount = (.ok (), s') → Reachable s'
  | step_transfer_from {s s' : SimpleToken} (caller fr dst : AccountId) (amount : Nat) :
      Reachable s → transfer_from s caller fr dst amount = (.ok (), s') → Reachable s'
  | step_batch {s s' : SimpleToken} (caller : AccountId)
      (recipients : List AccountId) (amounts : List Nat) :
      Reachable s → batch_transfer s caller recipients amounts = (.ok (), s') → Reachable s'
  | step_pause {s s' : SimpleToken} (caller : AccountId) :
      Reachable s → pause s caller = (.ok (), s') → Reachable s'
  | step_unpause {s s' : SimpleToken} (caller : AccountId) :
      Reachable s → unpause s caller = (.ok (), s') → Reachable s'
  | step_set_blacklist {s s' : SimpleToken} (caller account : AccountId) (flag : Bool) :
      Reachable s → set_blacklist s caller account flag = (.ok (), s') → Reachable s'

/-! ### Concrete states used by witnesses and counterexamples -/

/-- The state reached from a fresh ledger (owner 0) by `mint(5, 100)`. -/
def mintedState : SimpleToken :=
  { balances := [(5, 100)], allowances := [], owner := 0,
    total_supply := 100, paused := false, blacklist := [] }

/-- The state reached from a fresh ledger (owner 0) by minting `u128::MAX`
to account 1: the total supply is saturated. -/
def maxState : SimpleToken :=
  { balances := [(1, 2 ^ 128 - 1)], allowances := [], owner := 0,
    total_supply := 2 ^ 128 - 1, paused := false, blacklist := [] }

/-- A sample well-formed running state: owner 0, account 1 holds 100,
account 2 holds 50, account 1 has approved 30 to spender 3, account 9 is
blacklisted, not paused. -/
def wState : SimpleToken :=
  { balances := [(1, 100), (2, 50)], allowances := [((1, 3), 30)], owner := 0,
    total_supply := 150, paused := false, blacklist := [(9, true)] }

/-- `wState` with the pause flag set. -/
def pState : SimpleToken :=
  { wState with paused := true }

/-- `wState` after a successful `transfer(2, 10)` by account 1 (the state in
which a subsequent failing batch step leaves the ledger). -/
def midState : SimpleToken :=
  { wState with balances := [(1, 90), (2, 60)] }

/-- `wState` after `transfer_from(1, 2, 20)` called by spender 3. -/
def c3Post : SimpleToken :=
  { balances := [(1, 80), (2, 70)], allowances := [((1, 3), 10)], owner := 0,
    total_supply := 150, paused := false, blacklist := [(9, true)] }

/-- A state whose account 2 holds `u128::MAX`, so that crediting it any
positive amount overflows. -/
def ofState : SimpleToken :=
  { balances := [(1, 1), (2, 2 ^ 128 - 1)], allowances := [((1, 3), 5)], owner := 0,
    total_supply := 2 ^ 128 - 1, paused := false, blacklist := [] }

/-! ### Basic lemmas about the arithmetic and map primitives -/

theorem checked_add_eq_some {a b c : Nat} :
    checked_add a b = some c ↔ a + b < U128 ∧ c = a + b := by
  unfold checked_add
  split <;> simp_all [eq_comm]

theorem checked_add_eq_none {a b : Nat} :
    checked_add a b = none ↔ U128 ≤ a + b := by
  unfold checked_add
  split <;> simp_all

theorem checked_sub_eq_some {a b c : Nat} :
    checked_sub a b = some c ↔ b ≤ a ∧ c = a - b := by
  unfold checked_sub
  split <;> simp_all [eq_comm]

theorem checked_sub_eq_none {a b : Nat} :
    checked_sub a b = none ↔ a < b := by
  unfold checked_sub
  split <;> simp_all

theorem mget_minsert_self {K V : Type} [DecidableEq K]
    (m : List (K × V)) (k : K) (v : V) :
    mget (minsert m k v) k = some v := by
  induction m with
  | nil => simp [minsert, mget]
  | cons p rest ih =>
    obtain ⟨k', v'⟩ := p
    by_cases h : k' = k <;> simp [minsert, mget, h, ih]

theorem mget_minsert_ne {K V : Type} [DecidableEq K]
    (m : List (K × V)) {k k' : K} (v : V) (hne : k ≠ k') :
    mget (minsert m k v) k' = mget m k' := by
  induction m with
  | nil => simp [minsert, mget, hne]
  | cons p rest ih =>
    obtain ⟨k₀, v₀⟩ := p
    by_cases h : k₀ = k
    · subst h
      simp [minsert, mget, hne]
    · simp only [minsert, if_neg h, mget]
      split <;> simp_all

theorem listSum_minsert {K : Type} [DecidableEq K]
    (m : List (K × Nat)) (k : K) (v : Nat) :
    listSum (minsert m k v) + (mget m k).getD 0 = listSum m + v := by
  induction m with
  | nil => simp [minsert, mget, listSum]
  | cons p rest ih =>
    obtain ⟨k₀, v₀⟩ := p
    by_cases h : k₀ = k
    · subst h
      simp [minsert, mget, listSum]
      omega
    · simp only [minsert, if_neg h, mget, listSum, if_neg]
      omega

/-! ### Characterizations of the operations -/

theorem transfer_from_to_ok {s s' : SimpleToken} {fr dst : AccountId} {amount : Nat}
    (h : transfer_from_to s fr dst amount = (.ok (), s')) :
    s.paused = false ∧ fr ≠ dst ∧ is_blacklisted s fr = false ∧
    is_blacklisted s dst = false ∧ amount ≤ balance_of s fr ∧
    balance_of s dst + amount < U128 ∧
    s' = { s with balances := minsert (minsert s.balances fr (balance_of s fr - amount)) dst (balance_of s dst + amount) } := by
  simp only [transfer_from_to] at h
  split at h
  · simp at h
  rename_i hp
  split at h
  · simp at h
  rename_i hself
  split at h
  · simp at h
  rename_i hbl
  split at h
  · simp at h
  rename_i hbal
  split at h
  · simp at h
  rename_i nfb heq
  split at h
  · simp at h
  rename_i ntb heq2
  obtain ⟨hle, hnfb⟩ := checked_sub_eq_some.mp heq
  have hdst : balance_of { s with balances := minsert s.balances fr nfb } dst
      = balance_of s dst := by
    simp [balance_of, mget_minsert_ne _ _ (fun hfd => hself hfd)]
  rw [hdst] at heq2
  obtain ⟨hlt, hntb⟩ := checked_add_eq_some.mp heq2
  simp only [Prod.mk.injEq] at h
  refine ⟨by simpa using hp, fun hfd => hself hfd, ?_, ?_, by omega, hlt, ?_⟩
  · rcases Bool.or_eq_false_iff.mp (by simpa using hbl) with ⟨h1, _⟩
    exact h1
  · rcases Bool.or_eq_false_iff.mp (by simpa using hbl) with ⟨_, h2⟩
    exact h2
  · subst hnfb hntb
    exact h.2.symm

theorem transfer_from_to_error {s s' : SimpleToken} {fr dst : AccountId}
    {amount : Nat} {e : Error}
    (h : transfer_from_to s fr dst amount = (.error e, s')) :
    (s' = s ∧ (e = .Paused ∨ e = .SelfTransfer ∨ e = .Blacklisted ∨ e = .InsufficientBalance)) ∨
    (e = .Overflow ∧ U128 ≤ balance_of s dst + amount ∧ s.paused = false ∧ fr ≠ dst ∧ amount ≤ balance_of s fr ∧ s' = { s with balances := minsert s.balances fr (balance_of s fr - amount) }) := by
  simp only [transfer_from_to] at h
  split at h
  · rename_i hp
    simp only [Prod.mk.injEq] at h
    exact Or.inl ⟨h.2.symm, Or.inl (by simpa using h.1.symm)⟩
  rename_i hp
  split at h
  · simp only [Prod.mk.injEq] at h
    exact Or.inl ⟨h.2.symm, Or.inr (Or.inl (by simpa using h.1.symm))⟩
  rename_i hself
  split at h
  · simp only [Prod.mk.injEq] at h
    exact Or.inl ⟨h.2.symm, Or.inr (Or.inr (Or.inl (by simpa using h.1.symm)))⟩
  rename_i hbl
  split at h
  · simp only [Prod.mk.injEq] at h
    exact Or.inl ⟨h.2.symm, Or.inr (Or.inr (Or.inr (by simpa using h.1.symm)))⟩
  rename_i hbal
  split at h
  · rename_i heq
    exact absurd (checked_sub_eq_none.mp heq) (by omega)
  rename_i nfb heq
  split at h
  · rename_i heq2
    obtain ⟨hle, hnfb⟩ := checked_sub_eq_some.mp heq
    have hdst : balance_of { s with balances := minsert s.balances fr nfb } dst
        = balance_of s dst := by
      simp [balance_of, mget_minsert_ne _ _ (fun hfd => hself hfd)]
    rw [hdst] at heq2
    simp only [Prod.mk.injEq] at h
    refine Or.inr ⟨by simpa using h.1.symm, checked_add_eq_none.mp heq2, by simpa using hp,
      fun hfd => hself hfd, by omega, ?_⟩
    subst hnfb
    exact h.2.symm
  · simp at h

theorem mint_ok {s s' : SimpleToken} {caller dst : AccountId} {amount : Nat}
    (h : mint s caller dst amount = (.ok (), s')) :
    caller = s.owner ∧ is_blacklisted s dst = false ∧
    balance_of s dst + amount < U128 ∧ s.total_supply + amount < U128 ∧
    s' = { s with balances := minsert s.balances dst (balance_of s dst + amount), total_supply := s.total_supply + amount } := by
  simp only [mint] at h
  split at h
  · simp at h
  rename_i howner
  split at h
  · simp at h
  rename_i hbl
  split at h
  · simp at h
  rename_i nb heq
  split at h
  · simp at h
  rename_i ns heq2
  obtain ⟨hlt, hnb⟩ := checked_add_eq_some.mp heq
  -- record projection reduces definitionally
  obtain ⟨hlt2, hns⟩ := checked_add_eq_some.mp heq2
  simp only [Prod.mk.injEq] at h
  refine ⟨by simpa using howner, by simpa using hbl, hlt, hlt2, ?_⟩
  subst hnb hns
  exact h.2.symm

theorem mint_error {s s' : SimpleToken} {caller dst : AccountId} {amount : Nat}
    {e : Error} (h : mint s caller dst amount = (.error e, s')) :
    (s' = s ∧ (e = .NotOwner ∨ e = .Blacklisted ∨ (e = .Overflow ∧ U128 ≤ balance_of s dst + amount))) ∨
    (e = .Overflow ∧ balance_of s dst + amount < U128 ∧ U128 ≤ s.total_supply + amount ∧ s' = { s with balances := minsert s.balances dst (balance_of s dst + amount) }) := by
  simp only [mint] at h
  split at h
  · simp only [Prod.mk.injEq] at h
    exact Or.inl ⟨h.2.symm, Or.inl (by simpa using h.1.symm)⟩
  rename_i howner
  split at h
  · simp only [Prod.mk.injEq] at h
    exact Or.inl ⟨h.2.symm, Or.inr (Or.inl (by simpa using h.1.symm))⟩
  rename_i hbl
  split at h
  · rename_i heq
    simp only [Prod.mk.injEq] at h
    exact Or.inl ⟨h.2.symm, Or.inr (Or.inr ⟨by simpa using h.1.symm, checked_add_eq_none.mp heq⟩)⟩
  rename_i nb heq
  split at h
  · rename_i heq2
    obtain ⟨hlt, hnb⟩ := checked_add_eq_some.mp heq
    -- record projection reduces definitionally
    simp only [Prod.mk.injEq] at h
    refine Or.inr ⟨by simpa using h.1.symm, hlt, checked_add_eq_none.mp heq2, ?_⟩
    subst hnb
    exact h.2.symm
  · simp at h

theorem burn_ok {s s' : SimpleToken} {caller : AccountId} {amount : Nat}
    (h : burn s caller amount = (.ok (), s')) :
    amount ≤ balance_of s caller ∧ amount ≤ s.total_supply ∧
    s' = { s with balances := minsert s.balances caller (balance_of s caller - amount), total_supply := s.total_supply - amount } := by
  simp only [burn] at h
  split at h
  · simp at h
  rename_i hbal
  split at h
  · simp at h
  rename_i nb heq
  split at h
  · simp at h
  rename_i ns heq2
  obtain ⟨hle, hnb⟩ := checked_sub_eq_some.mp heq
  -- record projection reduces definitionally
  obtain ⟨hle2, hns⟩ := checked_sub_eq_some.mp heq2
  simp only [Prod.mk.injEq] at h
  refine ⟨by omega, hle2, ?_⟩
  subst hnb hns
  exact h.2.symm

theorem burn_error {s s' : SimpleToken} {caller : AccountId} {amount : Nat}
    {e : Error} (h : burn s caller amount = (.error e, s')) :
    (s' = s ∧ e = .InsufficientBalance ∧ balance_of s caller < amount) ∨
    (e = .Overflow ∧ amount ≤ balance_of s caller ∧ s.total_supply < amount ∧ s' = { s with balances := minsert s.balances caller (balance_of s caller - amount) }) := by
  simp only [burn] at h
  split at h
  · rename_i hbal
    simp only [Prod.mk.injEq] at h
    exact Or.inl ⟨h.2.symm, by simpa using h.1.symm, hbal⟩
  rename_i hbal
  split at h
  · rename_i heq
    exact absurd (checked_sub_eq_none.mp heq) (by omega)
  rename_i nb heq
  split at h
  · rename_i heq2
    obtain ⟨hle, hnb⟩ := checked_sub_eq_some.mp heq
    -- record projection reduces definitionally
    simp only [Prod.mk.injEq] at h
    refine Or.inr ⟨by simpa using h.1.symm, by omega, checked_sub_eq_none.mp heq2, ?_⟩
    subst hnb
    exact h.2.symm
  · simp at h

theorem transfer_from_ok {s s' : SimpleToken} {caller fr dst : AccountId} {amount : Nat}
    (h : transfer_from s caller fr dst amount = (.ok (), s')) :
    amount ≤ allowance s fr caller ∧
    ∃ s1, transfer_from_to s fr dst amount = (.ok (), s1) ∧
      s' = { s1 with allowances := minsert s1.allowances (fr, caller) (allowance s fr caller - amount) } := by
  simp only [transfer_from] at h
  split at h
  · simp at h
  rename_i hal
  rcases hcall : transfer_from_to s fr dst amount with ⟨r, s1⟩
  cases r with
  | error e =>
    simp only [hcall] at h
    exact absurd h (by simp)
  | ok u =>
    cases u
    simp only [hcall] at h
    split at h
    · rename_i heq
      exact absurd (checked_sub_eq_none.mp heq) (by omega)
    rename_i na heq
    obtain ⟨hle, hna⟩ := checked_sub_eq_some.mp heq
    simp only [Prod.mk.injEq] at h
    refine ⟨by omega, s1, by simp [hcall], ?_⟩
    subst hna
    exact h.2.symm

theorem transfer_from_error {s s' : SimpleToken} {caller fr dst : AccountId}
    {amount : Nat} {e : Error}
    (h : transfer_from s caller fr dst amount = (.error e, s')) :
    (e = .InsufficientAllowance ∧ s' = s ∧ allowance s fr caller < amount) ∨
    (amount ≤ allowance s fr caller ∧ transfer_from_to s fr dst amount = (.error e, s')) := by
  simp only [transfer_from] at h
  split at h
  · rename_i hal
    simp only [Prod.mk.injEq] at h
    exact Or.inl ⟨by simpa using h.1.symm, h.2.symm, hal⟩
  rename_i hal
  rcases hcall : transfer_from_to s fr dst amount with ⟨r, s1⟩
  cases r with
  | error einner =>
    simp only [hcall] at h
    simp only [Prod.mk.injEq] at h
    refine Or.inr ⟨by omega, ?_⟩
    simp only [hcall, Prod.mk.injEq]
    exact ⟨h.1, h.2⟩
  | ok u =>
    cases u
    simp only [hcall] at h
    split at h
    · rename_i heq
      exact absurd (checked_sub_eq_none.mp heq) (by omega)
    · simp at h

theorem batch_transfer_mismatch {s : SimpleToken} {caller : AccountId}
    {recipients : List AccountId} {amounts : List Nat}
    (h : recipients.length ≠ amounts.length) :
    batch_transfer s caller recipients amounts = (.error .BatchLengthMismatch, s) := by
  simp [batch_transfer, h]

theorem batch_transfer_eq_go {s : SimpleToken} {caller : AccountId}
    {recipients : List AccountId} {amounts : List Nat}
    (h : recipients.length = amounts.length) :
    batch_transfer s caller recipients amounts = batch_go caller s (recipients.zip amounts) := by
  simp [batch_transfer, h]

theorem batch_go_append_ok {caller : AccountId} :
    ∀ (pre : List (AccountId × Nat)) (s s1 : SimpleToken)
      (rest : List (AccountId × Nat)),
      batch_go caller s pre = (.ok (), s1) →
      batch_go caller s (pre ++ rest) = batch_go caller s1 rest := by
  intro pre
  induction pre with
  | nil =>
    intro s s1 rest h
    simp only [batch_go, Prod.mk.injEq] at h
    rw [List.nil_append, h.2]
  | cons p pre' ih =>
    intro s s1 rest h
    obtain ⟨dst, amount⟩ := p
    rw [List.cons_append]
    rcases hcall : transfer_from_to s caller dst amount with ⟨r, s0⟩
    cases r with
    | ok u =>
      cases u
      simp only [batch_go, hcall] at h ⊢
      exact ih s0 s1 rest h
    | error e =>
      simp only [batch_go, hcall] at h
      exact absurd h (by simp)

theorem pause_ok {s s' : SimpleToken} {caller : AccountId}
    (h : pause s caller = (.ok (), s')) :
    caller = s.owner ∧ s' = { s with paused := true } := by
  simp only [pause] at h
  split at h
  · simp at h
  rename_i howner
  simp only [Prod.mk.injEq] at h
  exact ⟨by simpa using howner, h.2.symm⟩

theorem unpause_ok {s s' : SimpleToken} {caller : AccountId}
    (h : unpause s caller = (.ok (), s')) :
    caller = s.owner ∧ s' = { s with paused := false } := by
  simp only [unpause] at h
  split at h
  · simp at h
  rename_i howner
  simp only [Prod.mk.injEq] at h
  exact ⟨by simpa using howner, h.2.symm⟩

theorem set_blacklist_ok {s s' : SimpleToken} {caller account : AccountId} {flag : Bool}
    (h : set_blacklist s caller account flag = (.ok (), s')) :
    caller = s.owner ∧ s' = { s with blacklist := minsert s.blacklist account flag } := by
  simp only [set_blacklist] at h
  split at h
  · simp at h
  rename_i howner
  simp only [Prod.mk.injEq] at h
  exact ⟨by simpa using howner, h.2.symm⟩

theorem approve_ok {s : SimpleToken} {caller spender : AccountId} {amount : Nat} :
    approve s caller spender amount = (.ok (), { s with allowances := minsert s.allowances (caller, spender) amount }) := rfl

theorem batch_transfer_ok {s s' : SimpleToken} {caller : AccountId}
    {recipients : List AccountId} {amounts : List Nat}
    (h : batch_transfer s caller recipients amounts = (.ok (), s')) :
    recipients.length = amounts.length ∧
    batch_go caller s (recipients.zip amounts) = (.ok (), s') := by
  simp only [batch_transfer] at h
  split at h
  · simp at h
  · rename_i hlen
    exact ⟨by omega, h⟩

/-! ### Preservation of the supply-conservation invariant -/

theorem transfer_from_to_preserves {s s' : SimpleToken} {fr dst : AccountId}
    {amount : Nat} (h : transfer_from_to s fr dst amount = (.ok (), s')) :
    listSum s'.balances = listSum s.balances ∧ s'.total_supply = s.total_supply ∧
    s'.allowances = s.allowances := by
  obtain ⟨hp, hne, hbf, hbd, hle, hlt, hs'⟩ := transfer_from_to_ok h
  subst hs'
  refine ⟨?_, rfl, rfl⟩
  have h1 := listSum_minsert s.balances fr (balance_of s fr - amount)
  have h2 := listSum_minsert (minsert s.balances fr (balance_of s fr - amount)) dst
    (balance_of s dst + amount)
  rw [mget_minsert_ne _ _ hne] at h2
  simp only [balance_of] at h1 h2 hle
  simp only [balance_of]
  omega

theorem batch_go_preserves {caller : AccountId} :
    ∀ (pairs : List (AccountId × Nat)) (s s' : SimpleToken),
      batch_go caller s pairs = (.ok (), s') →
      listSum s'.balances = listSum s.balances ∧ s'.total_supply = s.total_supply := by
  intro pairs
  induction pairs with
  | nil =>
    intro s s' h
    simp only [batch_go, Prod.mk.injEq] at h
    rw [h.2]
    exact ⟨rfl, rfl⟩
  | cons p rest ih =>
    intro s s' h
    obtain ⟨dst, amount⟩ := p
    rcases hcall : transfer_from_to s caller dst amount with ⟨r, s0⟩
    cases r with
    | ok u =>
      cases u
      simp only [batch_go, hcall] at h
      obtain ⟨hb, ht, -⟩ := transfer_from_to_preserves hcall
      obtain ⟨hb2, ht2⟩ := ih s0 s' h
      exact ⟨hb2.trans hb, ht2.trans ht⟩
    | error e =>
      simp only [batch_go, hcall] at h
      exact absurd h (by simp)

theorem reachable_supply_inv {s : SimpleToken} (h : Reachable s) :
    s.total_supply = listSum s.balances := by
  induction h with
  | created caller => rfl
  | step_mint caller dst amount hr hop ih =>
    rename_i s0 s'
    obtain ⟨_, _, _, _, hs'⟩ := mint_ok hop
    subst hs'
    have h1 := listSum_minsert s0.balances dst (balance_of s0 dst + amount)
    simp only [balance_of] at h1
    simp only [balance_of]
    omega
  | step_burn caller amount hr hop ih =>
    rename_i s0 s'
    obtain ⟨hle, hle2, hs'⟩ := burn_ok hop
    subst hs'
    have h1 := listSum_minsert s0.balances caller (balance_of s0 caller - amount)
    simp only [balance_of] at h1 hle
    simp only [balance_of]
    omega
  | step_transfer caller dst amount hr hop ih =>
    rename_i s0 s'
    simp only [transfer] at hop
    obtain ⟨hb, ht, -⟩ := transfer_from_to_preserves hop
    rw [ht, hb, ih]
  | step_approve caller spender amount hr hop ih =>
    rename_i s0 s'
    simp only [approve, Prod.mk.injEq] at hop
    rw [← hop.2]
    exact ih
  | step_transfer_from caller fr dst amount hr hop ih =>
    rename_i s0 s'
    obtain ⟨hle, s1, hcall, hs'⟩ := transfer_from_ok hop
    obtain ⟨hb, ht, -⟩ := transfer_from_to_preserves hcall
    subst hs'
    simpa [hb, ht] using ih
  | step_batch caller recipients amounts hr hop ih =>
    rename_i s0 s'
    obtain ⟨hlen, hgo⟩ := batch_transfer_ok hop
    obtain ⟨hb, ht⟩ := batch_go_preserves _ _ _ hgo
    rw [ht, hb, ih]
  | step_pause caller hr hop ih =>
    rename_i s0 s'
    obtain ⟨-, hs'⟩ := pause_ok hop
    subst hs'
    exact ih
  | step_unpause caller hr hop ih =>
    rename_i s0 s'
    obtain ⟨-, hs'⟩ := unpause_ok hop
    subst hs'
    exact ih
  | step_set_blacklist caller account flag hr hop ih =>
    rename_i s0 s'
    obtain ⟨-, hs'⟩ := set_blacklist_ok hop
    subst hs'
    exact ih

/-! ### Claim theorems -/

/-- C1: Supply conservation — in every state reachable from a freshly
created ledger by any sequence of successful public operations (mint,
burn, transfer, approve, transfer_from, batch_transfer, pause, unpause,
set_blacklist), `total_supply` equals the sum of all account balances. -/
theorem c1_supply_conservation (s : SimpleToken) (h : Reachable s) :
    s.total_supply = listSum s.balances :=
  reachable_supply_inv h

/-- C1 witness: the invariant at the concrete state reached from a fresh
ledger (owner 0) by the successful call `mint(5, 100)`. -/
theorem c1_supply_conservation_witness :
    mintedState.total_supply = listSum mintedState.balances :=
  c1_supply_conservation mintedState
    (Reachable.step_mint 0 5 100 (Reachable.created 0) (by decide))

/-- C2 counterexample: in `maxState` (reachable from a fresh ledger by
minting `u128::MAX` to account 1), `mint(2, 1)` by the owner fails with
`Overflow` — the supply addition overflows — yet the recipient's balance
HAS changed (from 0 to 1), because the balance write precedes the supply
checked addition.  This refutes the claim that a failing mint performs no
write and in particular refutes "all validation happens before any
write". -/
theorem c2_error_atomicity_counterexample :
    (mint maxState 0 2 1).1 = .error .Overflow ∧
    balance_of (mint maxState 0 2 1).2 2 ≠ balance_of maxState 2 ∧
    Reachable maxState := by
  refine ⟨by decide, by decide, ?_⟩
  exact Reachable.step_mint 0 1 (2 ^ 128 - 1) (Reachable.created 0) (by decide)

/-- C2 amended: a failing transfer, mint or burn either leaves the storage
exactly unchanged (this covers every pre-write validation failure:
NotOwner, Blacklisted, Paused, SelfTransfer, InsufficientBalance, and a
mint whose recipient-balance addition overflows), or the error is
`Overflow` raised at the late supply/recipient arithmetic step, in which
case exactly one balance write has already landed: mint has credited the
recipient, burn has debited the caller, transfer has debited the sender.
Allowances and (on these three operations) the stored total supply are
never changed by a failing call. -/
theorem c2_error_atomicity_amended (s : SimpleToken) (caller dst : AccountId)
    (amount : Nat) (e : Error) :
    ((transfer s caller dst amount).1 = .error e →
       (transfer s caller dst amount).2 = s ∨
       (e = .Overflow ∧ (transfer s caller dst amount).2 = { s with balances := minsert s.balances caller (balance_of s caller - amount) })) ∧
    ((mint s caller dst amount).1 = .error e →
       (mint s caller dst amount).2 = s ∨
       (e = .Overflow ∧ (mint s caller dst amount).2 = { s with balances := minsert s.balances dst (balance_of s dst + amount) })) ∧
    ((burn s caller amount).1 = .error e →
       (burn s caller amount).2 = s ∨
       (e = .Overflow ∧ (burn s caller amount).2 = { s with balances := minsert s.balances caller (balance_of s caller - amount) })) ∧
    ((transfer s caller dst amount).1 = .error e → (transfer s caller dst amount).2.allowances = s.allowances ∧ (transfer s caller dst amount).2.total_supply = s.total_supply) ∧
    ((mint s caller dst amount).1 = .error e → (mint s caller dst amount).2.allowances = s.allowances ∧ (mint s caller dst amount).2.total_supply = s.total_supply) ∧
    ((burn s caller amount).1 = .error e → (burn s caller amount).2.allowances = s.allowances ∧ (burn s caller amount).2.total_supply = s.total_supply) := by
  rcases ht : transfer s caller dst amount with ⟨rt, st⟩
  rcases hm : mint s caller dst amount with ⟨rm, sm⟩
  rcases hb : burn s caller amount with ⟨rb, sb⟩
  simp only [transfer] at ht
  refine ⟨?_, ?_, ?_, ?_, ?_, ?_⟩
  · intro h
    subst h
    rcases transfer_from_to_error ht with ⟨hs, -⟩ | ⟨he, -, -, -, -, hs⟩
    · exact Or.inl hs
    · exact Or.inr ⟨he, hs⟩
  · intro h
    subst h
    rcases mint_error hm with ⟨hs, -⟩ | ⟨he, -, -, hs⟩
    · exact Or.inl hs
    · exact Or.inr ⟨he, hs⟩
  · intro h
    subst h
    rcases burn_error hb with ⟨hs, -, -⟩ | ⟨he, -, -, hs⟩
    · exact Or.inl hs
    · exact Or.inr ⟨he, hs⟩
  · intro h
    subst h
    rcases transfer_from_to_error ht with ⟨hs, -⟩ | ⟨-, -, -, -, -, hs⟩ <;>
      subst hs <;> exact ⟨rfl, rfl⟩
  · intro h
    subst h
    rcases mint_error hm with ⟨hs, -⟩ | ⟨-, -, -, hs⟩ <;>
      subst hs <;> exact ⟨rfl, rfl⟩
  · intro h
    subst h
    rcases burn_error hb with ⟨hs, -, -⟩ | ⟨-, -, -, hs⟩ <;>
      subst hs <;> exact ⟨rfl, rfl⟩

/-- C2 amended witness: concrete instances — a paused transfer fails with
the storage unchanged; the overflowing mint from the counterexample lands
in the documented partially-written state. -/
theorem c2_error_atomicity_amended_witness :
    ((transfer pState 1 2 5).2 = pState ∨
     (Error.Paused = Error.Overflow ∧ (transfer pState 1 2 5).2 = { pState with balances := minsert pState.balances 1 (balance_of pState 1 - 5) })) ∧
    ((mint maxState 0 2 1).2 = maxState ∨
     (Error.Overflow = Error.Overflow ∧ (mint maxState 0 2 1).2 = { maxState with balances := minsert maxState.balances 2 (balance_of maxState 2 + 1) })) ∧
    ((burn wState 5 1).2 = wState ∨
     (Error.InsufficientBalance = Error.Overflow ∧ (burn wState 5 1).2 = { wState with balances := minsert wState.balances 5 (balance_of wState 5 - 1) })) :=
  ⟨(c2_error_atomicity_amended pState 1 2 5 .Paused).1 (by decide),
   (c2_error_atomicity_amended maxState 0 2 1 .Overflow).2.1 (by decide),
   (c2_error_atomicity_amended wState 5 0 1 .InsufficientBalance).2.2.1 (by decide)⟩

/-- C3: `transfer_from` semantics — if the allowance of (from, caller) is
below the amount the call fails with `InsufficientAllowance` and changes
nothing; on success the sender is debited and the recipient credited by
exactly the amount, the (from, caller) allowance decreases by exactly the
amount, and no other allowance entry changes. -/
theorem c3_transfer_from_semantics (s : SimpleToken) (caller fr dst : AccountId)
    (amount : Nat) :
    (allowance s fr caller < amount →
       transfer_from s caller fr dst amount = (.error .InsufficientAllowance, s)) ∧
    (∀ s', transfer_from s caller fr dst amount = (.ok (), s') →
       amount ≤ balance_of s fr ∧
       balance_of s' fr = balance_of s fr - amount ∧
       balance_of s' dst = balance_of s dst + amount ∧
       amount ≤ allowance s fr caller ∧
       allowance s' fr caller = allowance s fr caller - amount ∧
       (∀ o sp : AccountId, (o, sp) ≠ (fr, caller) →
          allowance s' o sp = allowance s o sp)) := by
  constructor
  · intro h
    simp only [transfer_from, if_pos h]
  · intro s' h
    obtain ⟨hle, s1, hcall, hs'⟩ := transfer_from_ok h
    obtain ⟨hp, hne, hbf, hbd, hble, hlt, hs1⟩ := transfer_from_to_ok hcall
    subst hs' hs1
    refine ⟨hble, ?_, ?_, hle, ?_, ?_⟩
    · simp only [balance_of]
      rw [mget_minsert_ne _ _ (fun hdf => hne hdf.symm), mget_minsert_self]
      rfl
    · simp only [balance_of]
      rw [mget_minsert_self]
      rfl
    · simp only [allowance]
      rw [mget_minsert_self]
      rfl
    · intro o sp hosp
      simp only [allowance]
      rw [mget_minsert_ne _ _ (fun hk => hosp hk.symm)]

/-- C3 witness: in `wState`, spender 3 moving 20 from account 1 to account 2
succeeds and lands in `c3Post`; a caller with no allowance fails with
`InsufficientAllowance` and an unchanged state. -/
theorem c3_transfer_from_semantics_witness :
    transfer_from wState 4 1 2 50 = (.error .InsufficientAllowance, wState) ∧
    balance_of c3Post 1 = balance_of wState 1 - 20 ∧
    balance_of c3Post 2 = balance_of wState 2 + 20 ∧
    allowance c3Post 1 3 = allowance wState 1 3 - 20 ∧
    allowance c3Post 1 4 = allowance wState 1 4 :=
  ⟨(c3_transfer_from_semantics wState 4 1 2 50).1 (by decide),
   ((c3_transfer_from_semantics wState 3 1 2 20).2 c3Post (by decide)).2.1,
   ((c3_transfer_from_semantics wState 3 1 2 20).2 c3Post (by decide)).2.2.1,
   ((c3_transfer_from_semantics wState 3 1 2 20).2 c3Post (by decide)).2.2.2.2.1,
   ((c3_transfer_from_semantics wState 3 1 2 20).2 c3Post (by decide)).2.2.2.2.2 1 4 (by decide)⟩

/-- C4: `batch_transfer` semantics — a length mismatch fails with
`BatchLengthMismatch` and mutates nothing; a successful call is exactly the
in-order fold of the transfer engine over the zipped pairs; and when the
pairs split as a successful prefix followed by a failing step, the whole
call returns that step's error together with the storage exactly as the
failing step left it (no rollback of the earlier successful iterations). -/
theorem c4_batch_transfer_semantics (s : SimpleToken) (caller : AccountId)
    (recipients : List AccountId) (amounts : List Nat) :
    (recipients.length ≠ amounts.length →
       batch_transfer s caller recipients amounts = (.error .BatchLengthMismatch, s)) ∧
    (∀ s', batch_transfer s caller recipients amounts = (.ok (), s') →
       recipients.length = amounts.length ∧
       batch_go caller s (recipients.zip amounts) = (.ok (), s')) ∧
    (∀ (pre post : List (AccountId × Nat)) (dst : AccountId) (amt : Nat)
       (s1 s2 : SimpleToken) (e : Error),
       recipients.length = amounts.length →
       recipients.zip amounts = pre ++ (dst, amt) :: post →
       batch_go caller s pre = (.ok (), s1) →
       transfer_from_to s1 caller dst amt = (.error e, s2) →
       batch_transfer s caller recipients amounts = (.error e, s2)) := by
  refine ⟨batch_transfer_mismatch, fun s' h => batch_transfer_ok h, ?_⟩
  intro pre post dst amt s1 s2 e hlen hzip hpre hfail
  rw [batch_transfer_eq_go hlen, hzip, batch_go_append_ok pre s s1 _ hpre]
  simp only [batch_go, hfail]

/-- C4 witness: mismatched lengths fail without mutation; the batch
`[(2, 10), (9, 5)]` from account 1 in `wState` performs the first transfer,
then aborts with `Blacklisted` on the blacklisted recipient 9, leaving the
first transfer's effect in place (`midState`). -/
theorem c4_batch_transfer_semantics_witness :
    batch_transfer wState 1 [2] [] = (.error .BatchLengthMismatch, wState) ∧
    batch_transfer wState 1 [2, 9] [10, 5] = (.error .Blacklisted, midState) :=
  ⟨(c4_batch_transfer_semantics wState 1 [2] []).1 (by decide),
   (c4_batch_transfer_semantics wState 1 [2, 9] [10, 5]).2.2 [(2, 10)] [] 9 5
     midState midState .Blacklisted (by decide) (by decide) (by decide) (by decide)⟩

/-- C5 counterexample: in the paused state `pState`, a self-transfer by
account 3 fails with `Paused`, not `SelfTransfer`: the pause check, not the
`from == to` check, is the first check of the transfer engine. -/
theorem c5_self_transfer_counterexample :
    (transfer pState 3 3 5).1 = .error .Paused ∧
    (transfer pState 3 3 5).1 ≠ .error .SelfTransfer := by
  decide

/-- C5 amended: in every NON-PAUSED state (including states with
blacklisted accounts — the `from == to` check still precedes the blacklist
check), a self-transfer fails with `SelfTransfer` regardless of the
account's balance, with the storage unchanged; when paused it fails with
`Paused` instead. -/
theorem c5_self_transfer_amended (s : SimpleToken) (a : AccountId) (n : Nat)
    (h : s.paused = false) :
    transfer s a a n = (.error .SelfTransfer, s) := by
  simp [transfer, transfer_from_to, h]

/-- C5 amended witness: a self-transfer by the blacklisted account 9 in the
unpaused `wState` fails with `SelfTransfer`. -/
theorem c5_self_transfer_amended_witness :
    transfer wState 9 9 5 = (.error .SelfTransfer, wState) :=
  c5_self_transfer_amended wState 9 5 (by decide)

theorem mint_paused_indep (s : SimpleToken) (b : Bool) (caller dst : AccountId)
    (amount : Nat) :
    (mint { s with paused := b } caller dst amount).1 = (mint s caller dst amount).1 ∧
    (mint { s with paused := b } caller dst amount).2 = { (mint s caller dst amount).2 with paused := b } := by
  simp only [mint, is_blacklisted, balance_of]
  split
  · exact ⟨rfl, rfl⟩
  split
  · exact ⟨rfl, rfl⟩
  split
  · exact ⟨rfl, rfl⟩
  split
  · exact ⟨rfl, rfl⟩
  · exact ⟨rfl, rfl⟩

theorem burn_paused_indep (s : SimpleToken) (b : Bool) (caller : AccountId)
    (amount : Nat) :
    (burn { s with paused := b } caller amount).1 = (burn s caller amount).1 ∧
    (burn { s with paused := b } caller amount).2 = { (burn s caller amount).2 with paused := b } := by
  simp only [burn, balance_of]
  split
  · exact ⟨rfl, rfl⟩
  split
  · exact ⟨rfl, rfl⟩
  split
  · exact ⟨rfl, rfl⟩
  · exact ⟨rfl, rfl⟩

/-- C6 counterexample: with the pause flag set, `transfer_from` by a caller
whose allowance is below the amount fails with `InsufficientAllowance`,
not `Paused` — the allowance check runs before the transfer engine's pause
check, so "whenever paused, transfer_from fails with Paused" is false. -/
theorem c6_pause_asymmetry_counterexample :
    pState.paused = true ∧
    (transfer_from pState 1 2 3 5).1 = .error .InsufficientAllowance ∧
    (transfer_from pState 1 2 3 5).1 ≠ .error .Paused := by
  decide

/-- C6 amended: whenever the paused flag is set, `transfer` fails with
`Paused` (state unchanged); `transfer_from` fails with `Paused` provided
its leading allowance check passes (otherwise it fails with
`InsufficientAllowance`); `batch_transfer` with equal-length, nonempty
inputs fails with `Paused` (state unchanged); and mint and burn are
completely insensitive to the pause flag: their result and their effect on
every other storage field are identical with the flag set or cleared. -/
theorem c6_pause_asymmetry_amended (s : SimpleToken) (caller fr dst : AccountId)
    (amount : Nat) (recipients : List AccountId) (amounts : List Nat) :
    (s.paused = true → transfer s caller dst amount = (.error .Paused, s)) ∧
    (s.paused = true → amount ≤ allowance s fr caller →
       transfer_from s caller fr dst amount = (.error .Paused, s)) ∧
    (s.paused = true → recipients ≠ [] → recipients.length = amounts.length →
       batch_transfer s caller recipients amounts = (.error .Paused, s)) ∧
    ((mint { s with paused := true } caller dst amount).1 = (mint { s with paused := false } caller dst amount).1 ∧
     (mint { s with paused := true } caller dst amount).2 = { (mint { s with paused := false } caller dst amount).2 with paused := true }) ∧
    ((burn { s with paused := true } caller amount).1 = (burn { s with paused := false } caller amount).1 ∧
     (burn { s with paused := true } caller amount).2 = { (burn { s with paused := false } caller amount).2 with paused := true }) := by
  refine ⟨?_, ?_, ?_, ?_, ?_⟩
  · intro hp
    simp [transfer, transfer_from_to, hp]
  · intro hp hle
    have he : transfer_from_to s fr dst amount = (.error .Paused, s) := by
      simp [transfer_from_to, hp]
    simp only [transfer_from, if_neg (not_lt.mpr hle), he]
  · intro hp hne hlen
    have he : ∀ d a, transfer_from_to s caller d a = (.error .Paused, s) := by
      intro d a
      simp [transfer_from_to, hp]
    cases recipients with
    | nil => exact absurd rfl hne
    | cons r rs =>
      cases amounts with
      | nil => simp at hlen
      | cons a as =>
        rw [batch_transfer_eq_go hlen]
        simp only [List.zip_cons_cons, batch_go, he r a]
  · exact mint_paused_indep { s with paused := false } true caller dst amount
  · exact burn_paused_indep { s with paused := false } true caller amount

/-- C6 amended witness: in the paused state `pState`, transfer,
allowance-covered transfer_from and a nonempty batch all fail with
`Paused` and leave the state unchanged. -/
theorem c6_pause_asymmetry_amended_witness :
    transfer pState 1 2 5 = (.error .Paused, pState) ∧
    transfer_from pState 3 1 2 5 = (.error .Paused, pState) ∧
    batch_transfer pState 1 [2] [5] = (.error .Paused, pState) :=
  ⟨(c6_pause_asymmetry_amended pState 1 1 2 5 [] []).1 (by decide),
   (c6_pause_asymmetry_amended pState 3 1 2 5 [] []).2.1 (by decide) (by decide),
   (c6_pause_asymmetry_amended pState 1 1 2 5 [2] [5]).2.2.1 (by decide) (by decide) (by decide)⟩

/-- C7: `approve` is an unconditional exact overwrite — it always succeeds
(no balance, pause or blacklist check), approving n then m leaves the
allowance at exactly m (not n + m), and it changes no balance, no other
allowance entry, and none of the remaining storage fields. -/
theorem c7_approve_overwrite (s : SimpleToken) (caller spender : AccountId)
    (n m : Nat) :
    (approve s caller spender n).1 = .ok () ∧
    allowance (approve (approve s caller spender n).2 caller spender m).2 caller spender = m ∧
    (approve s caller spender n).2.balances = s.balances ∧
    (approve s caller spender n).2.total_supply = s.total_supply ∧
    (approve s caller spender n).2.paused = s.paused ∧
    (approve s caller spender n).2.blacklist = s.blacklist ∧
    allowance (approve s caller spender n).2 caller spender = n ∧
    (∀ o sp : AccountId, (o, sp) ≠ (caller, spender) →
       allowance (approve s caller spender n).2 o sp = allowance s o sp) := by
  refine ⟨rfl, ?_, rfl, rfl, rfl, rfl, ?_, ?_⟩
  · simp only [approve, allowance]
    rw [mget_minsert_self]
    rfl
  · simp only [approve, allowance]
    rw [mget_minsert_self]
    rfl
  · intro o sp hosp
    simp only [approve, allowance]
    rw [mget_minsert_ne _ _ (fun hk => hosp hk.symm)]

/-- C7 witness: in `wState`, approving 10 then 4 to spender 2 leaves the
allowance at exactly 4, and account 1's pre-existing allowance to
spender 3 is untouched. -/
theorem c7_approve_overwrite_witness :
    (approve wState 1 2 10).1 = .ok () ∧
    allowance (approve (approve wState 1 2 10).2 1 2 4).2 1 2 = 4 ∧
    allowance (approve wState 1 2 10).2 1 3 = allowance wState 1 3 :=
  ⟨(c7_approve_overwrite wState 1 2 10 4).1,
   (c7_approve_overwrite wState 1 2 10 4).2.1,
   (c7_approve_overwrite wState 1 2 10 4).2.2.2.2.2.2.2 1 3 (by decide)⟩

/-- C8 counterexample: account 9 is blacklisted in the paused state
`pState`, yet its outgoing transfer fails with `Paused`, not with
`Blacklisted` — the pause check precedes the blacklist check, so the claim
quantified over EVERY state with a blacklisted endpoint is false. -/
theorem c8_blacklist_counterexample :
    is_blacklisted pState 9 = true ∧
    (transfer pState 9 2 5).1 = .error .Paused ∧
    (transfer pState 9 2 5).1 ≠ .error .Blacklisted := by
  decide

/-- C8 amended: an absent blacklist key reads as not blacklisted; and in
every NON-PAUSED state, for DISTINCT endpoints with either endpoint
blacklisted, the transfer engine — hence `transfer`, `transfer_from`
(provided its leading allowance check passes) and any `batch_transfer`
step that reaches such a pair — fails with `Blacklisted` and moves no
value.  (When paused the failure is `Paused`; a blacklisted self-transfer
fails with `SelfTransfer`; an insufficient allowance masks the blacklist
error in `transfer_from`.) -/
theorem c8_blacklist_amended (s : SimpleToken) (caller fr dst : AccountId)
    (amount : Nat) (rest : List (AccountId × Nat)) :
    (mget s.blacklist fr = none → is_blacklisted s fr = false) ∧
    (s.paused = false → fr ≠ dst →
       (is_blacklisted s fr = true ∨ is_blacklisted s dst = true) →
       transfer_from_to s fr dst amount = (.error .Blacklisted, s)) ∧
    (s.paused = false → caller ≠ dst →
       (is_blacklisted s caller = true ∨ is_blacklisted s dst = true) →
       transfer s caller dst amount = (.error .Blacklisted, s)) ∧
    (s.paused = false → fr ≠ dst →
       (is_blacklisted s fr = true ∨ is_blacklisted s dst = true) →
       amount ≤ allowance s fr caller →
       transfer_from s caller fr dst amount = (.error .Blacklisted, s)) ∧
    (s.paused = false → caller ≠ dst →
       (is_blacklisted s caller = true ∨ is_blacklisted s dst = true) →
       batch_go caller s ((dst, amount) :: rest) = (.error .Blacklisted, s)) := by
  refine ⟨?_, ?_, ?_, ?_, ?_⟩
  · intro h
    simp [is_blacklisted, h]
  · intro hp hne hbl
    simp only [transfer_from_to, hp, Bool.false_eq_true, if_false, if_neg hne]
    rcases hbl with h | h <;> simp [h]
  · intro hp hne hbl
    simp only [transfer, transfer_from_to, hp, Bool.false_eq_true, if_false, if_neg hne]
    rcases hbl with h | h <;> simp [h]
  · intro hp hne hbl hle
    have he : transfer_from_to s fr dst amount = (.error .Blacklisted, s) := by
      simp only [transfer_from_to, hp, Bool.false_eq_true, if_false, if_neg hne]
      rcases hbl with h | h <;> simp [h]
    simp only [transfer_from, if_neg (not_lt.mpr hle), he]
  · intro hp hne hbl
    have he : transfer_from_to s caller dst amount = (.error .Blacklisted, s) := by
      simp only [transfer_from_to, hp, Bool.false_eq_true, if_false, if_neg hne]
      rcases hbl with h | h <;> simp [h]
    simp only [batch_go, he]

/-- C8 amended witness: in `wState` (unpaused, account 9 blacklisted):
account 4 has no blacklist entry and reads as not blacklisted; transfers
touching account 9 — directly, via the engine, via an allowance-covered
`transfer_from`, and as the head step of a batch — fail with
`Blacklisted` and leave the state unchanged. -/
theorem c8_blacklist_amended_witness :
    is_blacklisted wState 4 = false ∧
    transfer_from_to wState 9 2 5 = (.error .Blacklisted, wState) ∧
    transfer wState 9 2 5 = (.error .Blacklisted, wState) ∧
    transfer_from wState 1 9 2 0 = (.error .Blacklisted, wState) ∧
    batch_go 9 wState [(2, 5)] = (.error .Blacklisted, wState) :=
  ⟨(c8_blacklist_amended wState 1 4 2 5 []).1 (by decide),
   (c8_blacklist_amended wState 1 9 2 5 []).2.1 (by decide) (by decide) (by decide),
   (c8_blacklist_amended wState 9 1 2 5 []).2.2.1 (by decide) (by decide) (by decide),
   (c8_blacklist_amended wState 1 9 2 0 []).2.2.2.1 (by decide) (by decide) (by decide) (by decide),
   (c8_blacklist_amended wState 9 1 2 5 []).2.2.2.2 (by decide) (by decide) (by decide)⟩

theorem tft_overflow_bound {s s2 : SimpleToken} {fr dst : AccountId} {amount : Nat}
    (hm : transfer_from_to s fr dst amount = (.error .Overflow, s2)) :
    U128 ≤ balance_of s dst + amount := by
  rcases transfer_from_to_error hm with ⟨-, he⟩ | ⟨-, hbound, -, -, -, -⟩
  · rcases he with h1 | h1 | h1 | h1 <;> exact absurd h1 (by decide)
  · exact hbound

theorem tf_overflow_bound {s s2 : SimpleToken} {caller fr dst : AccountId} {amount : Nat}
    (hm : transfer_from s caller fr dst amount = (.error .Overflow, s2)) :
    U128 ≤ balance_of s dst + amount := by
  rcases transfer_from_error hm with ⟨he, -, -⟩ | ⟨-, hengine⟩
  · exact absurd he (by decide)
  · exact tft_overflow_bound hengine

/-- C9: the defensive checked subtractions are unreachable — when the
preceding comparison has passed, `checked_sub` on the sender balance and on
the allowance always succeeds with the exact difference; consequently the
only way the transfer engine or `transfer_from` can return `Overflow` is
the recipient-balance checked ADDITION actually overflowing. -/
theorem c9_defensive_subs_unreachable (s : SimpleToken) (caller fr dst : AccountId)
    (amount : Nat) :
    (amount ≤ balance_of s fr →
       checked_sub (balance_of s fr) amount = some (balance_of s fr - amount)) ∧
    (amount ≤ allowance s fr caller →
       checked_sub (allowance s fr caller) amount = some (allowance s fr caller - amount)) ∧
    ((transfer_from_to s fr dst amount).1 = .error .Overflow →
       U128 ≤ balance_of s dst + amount) ∧
    ((transfer_from s caller fr dst amount).1 = .error .Overflow →
       U128 ≤ balance_of s dst + amount) := by
  refine ⟨fun h => checked_sub_eq_some.mpr ⟨h, rfl⟩,
          fun h => checked_sub_eq_some.mpr ⟨h, rfl⟩, ?_, ?_⟩
  · intro h
    have hm : transfer_from_to s fr dst amount = (.error .Overflow, (transfer_from_to s fr dst amount).2) := by
      rw [← h]
    exact tft_overflow_bound hm
  · intro h
    have hm : transfer_from s caller fr dst amount = (.error .Overflow, (transfer_from s caller fr dst amount).2) := by
      rw [← h]
    exact tf_overflow_bound hm

/-- C9 witness: in `ofState` (account 1 holds 1, account 2 holds
`u128::MAX`, allowance (1,3) = 5) with amount 1: both guarded subtractions
succeed, and the engine and `transfer_from` both fail with `Overflow`
precisely because crediting account 2 overflows. -/
theorem c9_defensive_subs_unreachable_witness :
    checked_sub (balance_of ofState 1) 1 = some (balance_of ofState 1 - 1) ∧
    checked_sub (allowance ofState 1 3) 1 = some (allowance ofState 1 3 - 1) ∧
    (transfer_from_to ofState 1 2 1).1 = .error .Overflow ∧
    U128 ≤ balance_of ofState 2 + 1 ∧
    (transfer_from ofState 3 1 2 1).1 = .error .Overflow :=
  ⟨(c9_defensive_subs_unreachable ofState 3 1 2 1).1 (by decide),
   (c9_defensive_subs_unreachable ofState 3 1 2 1).2.1 (by decide),
   by decide,
   (c9_defensive_subs_unreachable ofState 3 1 2 1).2.2.1 (by decide),
   by decide⟩

theorem mget_getD_lt {K : Type} [DecidableEq K] (bound : Nat) (hpos : 0 < bound) :
    ∀ (m : List (K × Nat)) (k : K), (∀ p ∈ m, p.2 < bound) →
      (mget m k).getD 0 < bound := by
  intro m
  induction m with
  | nil =>
    intro k h
    simpa [mget] using hpos
  | cons p rest ih =>
    intro k h
    obtain ⟨k', v⟩ := p
    simp only [mget]
    split
    · simpa using h (k', v) (by simp)
    · exact ih k (fun q hq => h q (by simp [hq]))

theorem balance_of_lt_of_wf {s : SimpleToken} (hwf : WF s) (a : AccountId) :
    balance_of s a < U128 :=
  mget_getD_lt U128 (by norm_num [U128]) s.balances a hwf.1

theorem mget_getD_minsert_keep {K : Type} [DecidableEq K]
    (m : List (K × Nat)) (k a : K) :
    (mget (minsert m k ((mget m k).getD 0)) a).getD 0 = (mget m a).getD 0 := by
  by_cases h : k = a
  · subst h
    rw [mget_minsert_self]
    rfl
  · rw [mget_minsert_ne _ _ h]

/-- C10: zero amounts are never rejected — the error enumeration has no
ZeroAmount variant (it is exactly the eight listed constructors), and on
any well-formed state: a zero transfer to a distinct, compliant recipient
succeeds and changes no observable balance; a zero mint by the owner to a
non-blacklisted account succeeds and changes no observable balance and not
the supply; a zero burn by any caller succeeds and changes no observable
balance and not the supply. -/
theorem c10_zero_amount (s : SimpleToken) (caller dst : AccountId) (hwf : WF s) :
    (caller ≠ dst → s.paused = false → is_blacklisted s caller = false →
     is_blacklisted s dst = false →
       (transfer s caller dst 0).1 = .ok () ∧
       ∀ a, balance_of (transfer s caller dst 0).2 a = balance_of s a) ∧
    (caller = s.owner → is_blacklisted s dst = false →
       (mint s caller dst 0).1 = .ok () ∧
       (∀ a, balance_of (mint s caller dst 0).2 a = balance_of s a) ∧
       (mint s caller dst 0).2.total_supply = s.total_supply) ∧
    ((burn s caller 0).1 = .ok () ∧
     (∀ a, balance_of (burn s caller 0).2 a = balance_of s a) ∧
     (burn s caller 0).2.total_supply = s.total_supply) ∧
    (∀ e : Error,
       e = .InsufficientBalance ∨ e = .NotOwner ∨ e = .SelfTransfer ∨
       e = .Overflow ∨ e = .InsufficientAllowance ∨ e = .Paused ∨
       e = .Blacklisted ∨ e = .BatchLengthMismatch) := by
  refine ⟨?_, ?_, ?_, ?_⟩
  · intro hne hp hbc hbd
    have hlt : balance_of s dst < U128 := balance_of_lt_of_wf hwf dst
    have e1 : transfer s caller dst 0 = (.ok (), { s with balances := minsert (minsert s.balances caller (balance_of s caller)) dst (balance_of s dst) }) := by
      simp only [transfer, transfer_from_to, hp, Bool.false_eq_true, if_false, if_neg hne,
        hbc, hbd, Bool.or_self, Nat.not_lt_zero, checked_sub, Nat.zero_le, if_true,
        Nat.sub_zero]
      simp only [balance_of] at hlt ⊢
      have hb1 : (mget (minsert s.balances caller ((mget s.balances caller).getD 0)) dst).getD 0 = (mget s.balances dst).getD 0 := by
        rw [mget_minsert_ne _ _ hne]
      rw [hb1]
      simp [checked_add, hlt]
    constructor
    · rw [e1]
    · intro a
      rw [e1]
      simp only [balance_of]
      have h2 : (mget (minsert s.balances caller ((mget s.balances caller).getD 0)) dst).getD 0 = (mget s.balances dst).getD 0 :=
        mget_getD_minsert_keep s.balances caller dst
      rw [← h2, mget_getD_minsert_keep, mget_getD_minsert_keep]
  · intro howner hbd
    have hlt : balance_of s dst < U128 := balance_of_lt_of_wf hwf dst
    have hslt : s.total_supply < U128 := hwf.2.2
    have e2 : mint s caller dst 0 = (.ok (), { s with balances := minsert s.balances dst (balance_of s dst), total_supply := s.total_supply }) := by
      simp only [mint, howner, ne_eq, not_true_eq_false, if_false, hbd,
        Bool.false_eq_true]
      simp [checked_add, hlt, hslt]
    refine ⟨by rw [e2], ?_, by rw [e2]⟩
    intro a
    rw [e2]
    simp only [balance_of]
    exact mget_getD_minsert_keep s.balances dst a
  · have e3 : burn s caller 0 = (.ok (), { s with balances := minsert s.balances caller (balance_of s caller), total_supply := s.total_supply }) := by
      simp only [burn, Nat.not_lt_zero, if_false]
      simp [checked_sub]
    refine ⟨by rw [e3], ?_, by rw [e3]⟩
    intro a
    rw [e3]
    simp only [balance_of]
    exact mget_getD_minsert_keep s.balances caller a
  · intro e
    cases e <;> simp

/-- C10 witness: in the well-formed `wState`, the zero transfer, zero mint
and zero burn all succeed and leave balances and supply unchanged. -/
theorem c10_zero_amount_witness :
    WF wState ∧
    (transfer wState 1 2 0).1 = .ok () ∧
    balance_of (transfer wState 1 2 0).2 1 = balance_of wState 1 ∧
    (mint wState 0 3 0).1 = .ok () ∧
    balance_of (mint wState 0 3 0).2 3 = balance_of wState 3 ∧
    (mint wState 0 3 0).2.total_supply = wState.total_supply ∧
    (burn wState 7 0).1 = .ok () ∧
    balance_of (burn wState 7 0).2 7 = balance_of wState 7 ∧
    (burn wState 7 0).2.total_supply = wState.total_supply :=
  have hwf : WF wState := by decide
  ⟨hwf,
   ((c10_zero_amount wState 1 2 hwf).1 (by decide) (by decide) (by decide) (by decide)).1,
   ((c10_zero_amount wState 1 2 hwf).1 (by decide) (by decide) (by decide) (by decide)).2 1,
   ((c10_zero_amount wState 0 3 hwf).2.1 (by decide) (by decide)).1,
   ((c10_zero_amount wState 0 3 hwf).2.1 (by decide) (by decide)).2.1 3,
   ((c10_zero_amount wState 0 3 hwf).2.1 (by decide) (by decide)).2.2,
   (c10_zero_amount wState 7 1 hwf).2.2.1.1,
   (c10_zero_amount wState 7 1 hwf).2.2.1.2.1 7,
   (c10_zero_amount wState 7 1 hwf).2.2.1.2.2⟩
